import Mathlib

/-!
Verification of the GameplayReplication plugin (replication graph and
rewindable component) against its natural-language specification.

The C++ sources are shallowly embedded: machine floats/doubles used for
world time and positions are modelled by exact rationals, Unreal
containers (TDoubleLinkedList, TArray, TMap) by Lean lists, and pointers
by Option.  Engine helpers that live outside this repository
(FMath.VInterpTo, the engine actor-list nodes, the spatial grid node)
are modelled from the specification text and marked as such in their
doc comments.
-/

namespace GameplayReplication

/-! ## Rewindable component data model (RewindableComponent.h / .cpp) -/

/-- A 3d vector with exact rational coordinates, modelling FVector. -/
structure Vec3 where
  x : ℚ
  y : ℚ
  z : ℚ
deriving DecidableEq

/-- Componentwise sum, modelling FVector operator+. -/
def Vec3.add (a b : Vec3) : Vec3 := ⟨a.x + b.x, a.y + b.y, a.z + b.z⟩

/-- Componentwise difference, modelling FVector operator-. -/
def Vec3.sub (a b : Vec3) : Vec3 := ⟨a.x - b.x, a.y - b.y, a.z - b.z⟩

/-- Scalar multiple, modelling FVector operator* with a scalar. -/
def Vec3.scale (a : Vec3) (s : ℚ) : Vec3 := ⟨a.x * s, a.y * s, a.z * s⟩

/-- Squared euclidean size, modelling FVector.SizeSquared. -/
def Vec3.sizeSquared (a : Vec3) : ℚ := a.x * a.x + a.y * a.y + a.z * a.z

/-- An axis-aligned bounding box, modelling FBox. -/
structure FBox where
  Min : Vec3
  Max : Vec3
deriving DecidableEq

/-- FFramePackage: the state of an actor recorded at a given server time. -/
structure FFramePackage where
  HitBox : FBox
  bTeleported : Bool
  Time : ℚ
deriving DecidableEq

/-- The default-constructed FFramePackage: zero box, no teleport, time 0. -/
def defaultFramePackage : FFramePackage :=
  { HitBox := { Min := ⟨0, 0, 0⟩, Max := ⟨0, 0, 0⟩ }, bTeleported := false, Time := 0 }

/-- FFramePackage.IsValid: a package is valid when its time is positive. -/
def FFramePackage.IsValid (p : FFramePackage) : Bool :=
  decide (0 < p.Time)

/-- Time of the head (newest) entry of a frame history; the history is a
list with the newest entry first, modelling the TDoubleLinkedList whose
head is written by AddHead. -/
def headTime (l : List FFramePackage) : ℚ :=
  (l.headD defaultFramePackage).Time

/-- Time of the tail (oldest) entry of a frame history. -/
def tailTime (l : List FFramePackage) : ℚ :=
  (l.getLastD defaultFramePackage).Time

/-- The eviction loop of URewindableComponent.UpdateFramePackage, written on
the reversed history (oldest entry first): removing the tail node of the
linked list is dropping the first entry of the reversed list.  The head
time is a fixed argument because the loop only ever removes tail nodes,
so GetHead never changes while it runs; the loop condition
HistoryLength > MaxRecordTime is re-evaluated against the new tail after
every removal, exactly as in the C++ while loop. -/
def evictLoopRev (maxRecordTime headT : ℚ) : List FFramePackage → List FFramePackage
  | [] => []
  | old :: rest =>
    if headT - old.Time > maxRecordTime then evictLoopRev maxRecordTime headT rest
    else old :: rest

/-- The eviction phase of UpdateFramePackage on the history in its natural
(newest first) order. -/
def evictOldFrames (maxRecordTime : ℚ) (l : List FFramePackage) : List FFramePackage :=
  (evictLoopRev maxRecordTime (headTime l) l.reverse).reverse

/-- URewindableComponent.UpdateFramePackage(bInTeleported): if the history
has at most one entry the new frame is pushed to the head; otherwise old
frames are evicted first (driven by the current, pre-push head time) and
the new frame is then pushed to the head. -/
def updateFramePackage (maxRecordTime : ℚ) (hist : List FFramePackage)
    (snap : FFramePackage) : List FFramePackage :=
  if hist.length ≤ 1 then snap :: hist
  else snap :: evictOldFrames maxRecordTime hist

/-- Reference record operation following the claim wording: the snapshot is
pushed to the head first and entries are then evicted from the tail while
the (new) head time minus the tail time exceeds the maximum duration. -/
def recordSpec (maxRecordTime : ℚ) (hist : List FFramePackage)
    (snap : FFramePackage) : List FFramePackage :=
  if hist.length ≤ 1 then snap :: hist
  else evictOldFrames maxRecordTime (snap :: hist)

/-- Folding a sequence of recorded snapshots through the component,
oldest first, starting from the empty history. -/
def recordFrames (maxRecordTime : ℚ) (snaps : List FFramePackage) : List FFramePackage :=
  snaps.foldl (updateFramePackage maxRecordTime) []

/-- A snapshot whose hit box is the degenerate box at x on the x axis. -/
def mkSnap (t x : ℚ) : FFramePackage :=
  { HitBox := { Min := ⟨x, 0, 0⟩, Max := ⟨x, 0, 0⟩ }, bTeleported := false, Time := t }

/-- FMath.Clamp for rationals: below the range gives the lower bound,
above the range the upper bound. -/
def clampQ (v lo hi : ℚ) : ℚ :=
  if v < lo then lo else if v > hi then hi else v

/-- Modelled from the spec: the engine helper FMath.VInterpTo, which is not
part of this repository.  With DeltaTime 1 and the interpolation fraction
as speed it moves Current toward Target by the given fraction, i.e. it
interpolates linearly (the float small-distance early-out is modelled as
an exact zero test, where it coincides with the linear result). -/
def vInterpTo (current target : Vec3) (deltaTime speed : ℚ) : Vec3 :=
  if speed ≤ 0 then target
  else
    let dist := target.sub current
    if dist.sizeSquared = 0 then target
    else current.add (dist.scale (clampQ (deltaTime * speed) 0 1))

/-- Plain linear interpolation from a toward b by fraction f; this is the
reference operation named by the specification for position-like fields. -/
def lerpVec (a b : Vec3) (f : ℚ) : Vec3 :=
  a.add ((b.sub a).scale f)

/-- URewindableComponent.InterpBetweenFrames: A is the older frame, B the
younger one.  The fraction is clamped to the unit interval, the box
corners are interpolated with VInterpTo, the teleport flag is the
disjunction of both flags, and the time of the result is the query time. -/
def interpBetweenFrames (A B : FFramePackage) (t : ℚ) : FFramePackage :=
  let Distance := B.Time - A.Time
  let InterpFraction := clampQ ((t - A.Time) / Distance) 0 1
  { HitBox :=
      { Max := vInterpTo A.HitBox.Max B.HitBox.Max 1 InterpFraction
      , Min := vInterpTo A.HitBox.Min B.HitBox.Min 1 InterpFraction }
  , bTeleported := A.bTeleported || B.bTeleported
  , Time := t }

/-- The pointer-walking loop of URewindableComponent.GetFramePackage:
starting with Younger = Older = head, while the Older time is above the
query time and a next (older) node exists, Older advances, and Younger
follows it only while the advanced node is still above the query time.
The list argument holds the nodes after the current Older node. -/
def scanLoop (t : ℚ) : FFramePackage → FFramePackage → List FFramePackage →
    FFramePackage × FFramePackage
  | younger, older, [] => (younger, older)
  | younger, older, n :: rest =>
    if older.Time > t then
      scanLoop t (if n.Time > t then n else younger) n rest
    else (younger, older)

/-- URewindableComponent.GetFramePackage: returns the default package when
the owner is gone or the history is empty, the default package when the
query time predates the oldest entry, the matching entry on an exact time
hit, the newest entry when the query time is at or after it, and the
interpolation between the two bracketing frames otherwise.  The pair
FrameToCheck / bShouldInterpolate of the C++ is threaded explicitly. -/
def getFramePackage (ownerValid : Bool) (hist : List FFramePackage) (t : ℚ) :
    FFramePackage :=
  match hist with
  | [] => defaultFramePackage
  | hd :: rest =>
    if ownerValid = false then defaultFramePackage
    else
      let oldest := (hd :: rest).getLastD defaultFramePackage
      if oldest.Time > t then defaultFramePackage
      else
        let st1 : FFramePackage × Bool :=
          if oldest.Time = t then (oldest, false) else (defaultFramePackage, true)
        let st2 : FFramePackage × Bool :=
          if hd.Time ≤ t then (hd, false) else st1
        let pair := scanLoop t hd hd rest
        let st3 : FFramePackage × Bool :=
          if pair.2.Time = t then (pair.2, false) else st2
        if st3.2 then interpBetweenFrames pair.2 pair.1 t else st3.1

/-- A history is time ordered when entry times strictly decrease from the
head (newest) toward the tail (oldest); UpdateFramePackage produces such
histories because world time advances between ticks. -/
def TimeOrdered (l : List FFramePackage) : Prop :=
  l.Pairwise (fun a b => b.Time < a.Time)

/-- The recorded demonstration sequence of the pruning example. -/
def demoSnaps : List FFramePackage :=
  [mkSnap 0 0, mkSnap 0.5 0, mkSnap 1 0, mkSnap 1.5 0]

theorem evictLoopRev_eq_drop (maxT h : ℚ) (r : List FFramePackage) :
    ∃ k, k ≤ r.length ∧ evictLoopRev maxT h r = r.drop k := by
  induction r with
  | nil => exact ⟨0, by simp, rfl⟩
  | cons old rest ih =>
    by_cases hc : h - old.Time > maxT
    · obtain ⟨k, hk, he⟩ := ih
      exact ⟨k + 1, by simpa using Nat.succ_le_succ hk, by simpa [evictLoopRev, hc] using he⟩
    · exact ⟨0, by simp, by simp [evictLoopRev, hc]⟩

theorem evictLoopRev_head_le (maxT h : ℚ) (r : List FFramePackage)
    (old : FFramePackage) (rest : List FFramePackage)
    (he : evictLoopRev maxT h r = old :: rest) : h - old.Time ≤ maxT := by
  induction r with
  | nil => simp [evictLoopRev] at he
  | cons a r2 ih =>
    by_cases hc : h - a.Time > maxT
    · exact ih (by simpa [evictLoopRev, hc] using he)
    · rw [evictLoopRev, if_neg hc] at he
      cases he
      exact le_of_not_lt hc

theorem evictLoopRev_ne_nil (maxT h : ℚ) (r : List FFramePackage)
    (hr : r ≠ []) (hlast : h - (r.getLastD defaultFramePackage).Time ≤ maxT) :
    evictLoopRev maxT h r ≠ [] := by
  induction r with
  | nil => simp at hr
  | cons a r2 ih =>
    by_cases hc : h - a.Time > maxT
    · cases r2 with
      | nil =>
        simp only [List.getLastD_cons, List.getLastD_nil] at hlast
        exact absurd hc (not_lt.mpr hlast)
      | cons b r3 =>
        have hb : h - ((b :: r3).getLastD defaultFramePackage).Time ≤ maxT := by
          simpa [List.getLastD_cons] using hlast
        simpa [evictLoopRev, hc] using ih (by simp) hb
    · simp [evictLoopRev, hc]

theorem tailTime_reverse_headD (l : List FFramePackage) :
    (l.reverse.getLastD defaultFramePackage).Time = headTime l := by
  simp only [headTime, List.getLastD_eq_getLast?, List.getLast?_reverse,
    List.headD_eq_head?_getD]

theorem tailTime_eq_reverse_headD (l : List FFramePackage) :
    tailTime l = (l.reverse.headD defaultFramePackage).Time := by
  simp only [tailTime, List.getLastD_eq_getLast?, List.head?_reverse,
    List.headD_eq_head?_getD]

/-- C2 counterexample: with maxRecordDuration 0.8 and recorded times
0, 0.5, 1.0, the code record of a snapshot at 1.5 (evict first against
the old head, then push) retains the 0.5 entry, while the
push-first-then-evict procedure described by the claim evicts it, so the
two disagree at this input. -/
theorem updateFramePackage_not_push_then_evict :
    updateFramePackage 0.8 (recordFrames 0.8 [mkSnap 0 0, mkSnap 0.5 0, mkSnap 1 0])
        (mkSnap 1.5 0) ≠
      recordSpec 0.8 (recordFrames 0.8 [mkSnap 0 0, mkSnap 0.5 0, mkSnap 1 0])
        (mkSnap 1.5 0) := by
  norm_num [recordFrames, updateFramePackage, recordSpec, evictOldFrames, evictLoopRev,
    headTime, tailTime, mkSnap]

/-- C2 (amended): on record, a history of at most one entry just receives
the snapshot at its head; otherwise entries are first evicted from the
tail while the pre-push head time minus the tail time exceeds
maxRecordDuration, and the snapshot is then pushed to the head.  Eviction
removes only trailing entries, always keeps at least one entry, and
leaves the retained tail within maxRecordDuration of the pre-push head.
With maxRecordDuration 0.8, recording at times 0, 0.5, 1.0, 1.5 retains
exactly the times 1.5, 1.0, 0.5: the entry at time 0 has been evicted
and the buffer is non-empty. -/
theorem updateFramePackage_spec (maxT : ℚ) (hist : List FFramePackage)
    (snap : FFramePackage) (hmax : 0 ≤ maxT) :
    updateFramePackage maxT hist snap ≠ [] ∧
    (hist.length ≤ 1 → updateFramePackage maxT hist snap = snap :: hist) ∧
    (2 ≤ hist.length → ∃ m, 1 ≤ m ∧ m ≤ hist.length ∧
        updateFramePackage maxT hist snap = snap :: hist.take m ∧
        headTime hist - tailTime (hist.take m) ≤ maxT) ∧
    ((recordFrames 0.8 demoSnaps).map FFramePackage.Time = [1.5, 1, 0.5] ∧
      recordFrames 0.8 demoSnaps ≠ [] ∧
      ∀ p ∈ recordFrames 0.8 demoSnaps, p.Time ≠ 0) := by
  have hdemo : recordFrames 0.8 demoSnaps =
      [mkSnap 1.5 0, mkSnap 1 0, mkSnap 0.5 0] := by
    norm_num [recordFrames, demoSnaps, updateFramePackage, evictOldFrames, evictLoopRev,
      headTime, tailTime, mkSnap]
  refine ⟨?_, ?_, ?_, ?_⟩
  · unfold updateFramePackage
    split <;> simp
  · intro hle
    unfold updateFramePackage
    rw [if_pos hle]
  · intro hlen
    have hne : hist ≠ [] := by
      intro h; rw [h] at hlen; simp at hlen
    obtain ⟨k, hk, he⟩ := evictLoopRev_eq_drop maxT (headTime hist) hist.reverse
    have hlast : headTime hist -
        (hist.reverse.getLastD defaultFramePackage).Time ≤ maxT := by
      rw [tailTime_reverse_headD]; simpa using hmax
    have hnn : evictLoopRev maxT (headTime hist) hist.reverse ≠ [] :=
      evictLoopRev_ne_nil maxT (headTime hist) hist.reverse (by simpa using hne) hlast
    have hkl : k < hist.length := by
      rcases lt_or_eq_of_le hk with h | h
      · simpa using h
      · exfalso; apply hnn; rw [he, h]; simp
    refine ⟨hist.length - k, by omega, by omega, ?_, ?_⟩
    · unfold updateFramePackage
      rw [if_neg (by omega)]
      unfold evictOldFrames
      rw [he, List.drop_reverse, List.reverse_reverse]
    · -- the retained tail is the head of the dropped reversed list
      obtain ⟨old, rest2, hcons⟩ := List.exists_cons_of_ne_nil hnn
      have hle := evictLoopRev_head_le maxT (headTime hist) hist.reverse old rest2 hcons
      have htake : hist.take (hist.length - k) =
          (evictLoopRev maxT (headTime hist) hist.reverse).reverse := by
        rw [he, List.drop_reverse, List.reverse_reverse]
      rw [htake, tailTime_eq_reverse_headD, List.reverse_reverse, hcons]
      simpa using hle
  · rw [hdemo]
    refine ⟨by norm_num [mkSnap], by simp, ?_⟩
    intro p hp
    simp only [List.mem_cons, List.not_mem_nil, or_false] at hp
    rcases hp with h | h | h <;> (subst h; norm_num [mkSnap])

/-- C2 witness: the amended record theorem applied to a concrete
two-entry history with maxRecordDuration 1. -/
theorem updateFramePackage_spec_witness :
    updateFramePackage 1 [mkSnap 2 0, mkSnap 1 0] (mkSnap 3 0) ≠ [] :=
  (updateFramePackage_spec 1 [mkSnap 2 0, mkSnap 1 0] (mkSnap 3 0) (by norm_num)).1

theorem scanLoop_stop (t : ℚ) (y older : FFramePackage) (l : List FFramePackage)
    (h : ¬ older.Time > t) : scanLoop t y older l = (y, older) := by
  cases l <;> simp [scanLoop, h]

theorem tailTime_le_headTime (l : List FFramePackage) (hne : l ≠ [])
    (hs : TimeOrdered l) : tailTime l ≤ headTime l := by
  induction l with
  | nil => simp at hne
  | cons a r ih =>
    cases r with
    | nil => simp [tailTime, headTime]
    | cons b r2 =>
      have hs2 : TimeOrdered (b :: r2) := (List.pairwise_cons.mp hs).2
      have hba : b.Time < a.Time :=
        (List.pairwise_cons.mp hs).1 b (by simp)
      have := ih (by simp) hs2
      have htl : tailTime (a :: b :: r2) = tailTime (b :: r2) := by
        simp [tailTime, List.getLastD_cons]
      rw [htl]
      simp only [headTime, List.headD_cons] at *
      linarith

/-- C3: on a non-empty time-ordered history, a query older than the oldest
retained snapshot returns the default (invalid) package, and a query at or
after the newest snapshot returns the newest snapshot unmodified. -/
theorem getFramePackage_range_behavior (hist : List FFramePackage) (t : ℚ)
    (hne : hist ≠ []) (hs : TimeOrdered hist) :
    (t < tailTime hist →
        getFramePackage true hist t = defaultFramePackage ∧
        (getFramePackage true hist t).IsValid = false) ∧
    (headTime hist ≤ t →
        getFramePackage true hist t = hist.headD defaultFramePackage) := by
  match hist, hne with
  | hd :: rest, _ =>
    constructor
    · intro hlt
      have hcond : ((hd :: rest).getLastD defaultFramePackage).Time > t := hlt
      constructor
      · simp only [getFramePackage]
        rw [if_neg (by simp), if_pos hcond]
      · simp only [getFramePackage]
        rw [if_neg (by simp), if_pos hcond]
        simp [FFramePackage.IsValid, defaultFramePackage]
    · intro hge
      have hhd : hd.Time ≤ t := hge
      have htl : tailTime (hd :: rest) ≤ headTime (hd :: rest) :=
        tailTime_le_headTime (hd :: rest) (by simp) hs
      have hcond : ¬ ((hd :: rest).getLastD defaultFramePackage).Time > t := by
        have : tailTime (hd :: rest) ≤ t := le_trans htl hge
        exact not_lt.mpr this
      simp only [getFramePackage]
      rw [if_neg (by simp), if_neg hcond]
      rw [scanLoop_stop t hd hd rest (not_lt.mpr hhd)]
      simp only [List.headD_cons]
      by_cases hex : hd.Time = t <;> simp [hex, hhd]

/-- C3 witness: the range behavior theorem applied to a concrete
two-entry history. -/
theorem getFramePackage_range_behavior_witness :
    getFramePackage true [mkSnap 2 5, mkSnap 1 3] 0 = defaultFramePackage :=
  ((getFramePackage_range_behavior [mkSnap 2 5, mkSnap 1 3] 0 (by simp)
    (by norm_num [TimeOrdered, List.pairwise_cons, mkSnap])).1
    (by norm_num [tailTime, List.getLastD_cons, List.getLastD_nil, mkSnap])).1

/-- C10: querying before the first record is total: a missing owner or an
empty history yields the default frame package, which has time 0 and is
not valid. -/
theorem getFramePackage_total_default :
    (∀ (hist : List FFramePackage) (t : ℚ),
        getFramePackage false hist t = defaultFramePackage) ∧
    (∀ (ownerValid : Bool) (t : ℚ),
        getFramePackage ownerValid [] t = defaultFramePackage) ∧
    defaultFramePackage.IsValid = false ∧ defaultFramePackage.Time = 0 := by
  refine ⟨?_, ?_, by simp [FFramePackage.IsValid, defaultFramePackage], rfl⟩
  · intro hist t
    cases hist with
    | nil => rfl
    | cons hd rest => simp [getFramePackage]
  · intro o t; rfl

theorem scanLoop_spec (t : ℚ) (rest : List FFramePackage) :
    ∀ (v : FFramePackage), t < v.Time → (∃ p ∈ rest, p.Time ≤ t) →
    ∃ ys older zs, rest = ys ++ older :: zs ∧
      (∀ y ∈ ys, t < y.Time) ∧ older.Time ≤ t ∧
      scanLoop t v v rest = ((v :: ys).getLastD defaultFramePackage, older) := by
  induction rest with
  | nil => intro v hv hreach; simp at hreach
  | cons n rest2 ih =>
    intro v hv hreach
    by_cases hn : n.Time > t
    · have hstep : scanLoop t v v (n :: rest2) = scanLoop t n n rest2 := by
        simp [scanLoop, hv, hn]
      obtain ⟨p, hp, hpt⟩ := hreach
      have hp2 : p ∈ rest2 := by
        rcases List.mem_cons.mp hp with h | h
        · exfalso; rw [h] at hpt; exact absurd hn (not_lt.mpr hpt)
        · exact h
      obtain ⟨ys, older, zs, hsplit, hys, holder, heq⟩ := ih n hn ⟨p, hp2, hpt⟩
      refine ⟨n :: ys, older, zs, by rw [hsplit]; rfl, ?_, holder, ?_⟩
      · intro y hy
        rcases List.mem_cons.mp hy with h | h
        · rw [h]; exact hn
        · exact hys y h
      · rw [hstep, heq]
        have : (v :: n :: ys).getLastD defaultFramePackage =
            (n :: ys).getLastD defaultFramePackage := by
          simp [List.getLastD_cons]
        rw [this]
    · have hstop : scanLoop t v v (n :: rest2) = (v, n) := by
        rw [scanLoop, if_pos hv, if_neg hn]
        exact scanLoop_stop t v n rest2 hn
      exact ⟨[], n, rest2, rfl, by simp, le_of_not_lt hn, by simpa using hstop⟩

theorem vInterpTo_lerp (c tg : Vec3) (f : ℚ) (h0 : 0 < f) (h1 : f ≤ 1) :
    vInterpTo c tg 1 f = lerpVec c tg f := by
  unfold vInterpTo
  rw [if_neg (not_le.mpr h0)]
  by_cases hz : (tg.sub c).sizeSquared = 0
  · rw [if_pos hz]
    unfold Vec3.sizeSquared at hz
    obtain ⟨hx, hy, hz3⟩ : (tg.sub c).x = 0 ∧ (tg.sub c).y = 0 ∧ (tg.sub c).z = 0 := by
      refine ⟨?_, ?_, ?_⟩ <;>
        nlinarith [mul_self_nonneg (tg.sub c).x, mul_self_nonneg (tg.sub c).y,
          mul_self_nonneg (tg.sub c).z]
    unfold Vec3.sub at hx hy hz3
    cases c; cases tg
    unfold lerpVec Vec3.add Vec3.scale Vec3.sub
    simp_all
    refine ⟨by linarith, by linarith, by linarith⟩
  · rw [if_neg hz]
    have hcl : clampQ (1 * f) 0 1 = f := by
      unfold clampQ
      rw [one_mul, if_neg (not_lt.mpr h0.le), if_neg (not_lt.mpr h1)]
    rw [hcl]
    rfl

theorem clampQ_of_bounds (x : ℚ) (h0 : 0 ≤ x) (h1 : x ≤ 1) : clampQ x 0 1 = x := by
  unfold clampQ
  rw [if_neg (not_lt.mpr h0), if_neg (not_lt.mpr h1)]

theorem interpBetweenFrames_lerp (A B : FFramePackage) (t : ℚ)
    (hA : A.Time < t) (hB : t ≤ B.Time) :
    interpBetweenFrames A B t =
      { HitBox :=
          { Min := lerpVec A.HitBox.Min B.HitBox.Min
              (clampQ ((t - A.Time) / (B.Time - A.Time)) 0 1)
          , Max := lerpVec A.HitBox.Max B.HitBox.Max
              (clampQ ((t - A.Time) / (B.Time - A.Time)) 0 1) }
      , bTeleported := A.bTeleported || B.bTeleported
      , Time := t } := by
  have hAB : A.Time < B.Time := lt_of_lt_of_le hA hB
  have hfrac0 : 0 < (t - A.Time) / (B.Time - A.Time) :=
    div_pos (by linarith) (by linarith)
  have hfrac1 : (t - A.Time) / (B.Time - A.Time) ≤ 1 := by
    rw [div_le_one (by linarith)]; linarith
  have hcl : clampQ ((t - A.Time) / (B.Time - A.Time)) 0 1 =
      (t - A.Time) / (B.Time - A.Time) := clampQ_of_bounds _ hfrac0.le hfrac1
  simp only [interpBetweenFrames]
  rw [hcl, vInterpTo_lerp _ _ _ hfrac0 hfrac1, vInterpTo_lerp _ _ _ hfrac0 hfrac1]

theorem getLastD_mem (l : List FFramePackage) (d : FFramePackage) (h : l ≠ []) :
    l.getLastD d ∈ l := by
  cases l with
  | nil => simp at h
  | cons a r =>
    rw [List.getLastD_cons]
    exact List.getLastD_mem_cons r a

/-- The recorded example history of the interpolation round trip: x grows
as 0, 10, 20 at times 0, 0.2, 0.4. -/
def demoHist : List FFramePackage :=
  recordFrames 0.8 [mkSnap 0 0, mkSnap 0.2 10, mkSnap 0.4 20]

/-- C4: on a time-ordered history with at least two snapshots and a query
time strictly between the oldest and the newest snapshot times, the scan
finds an adjacent bracketing pair (older, younger): an exact time hit
returns the older entry directly with no interpolation, and otherwise the
result carries the query time, the disjunction of the two teleport flags,
and box corners interpolated linearly by the clamped fraction.  The
recorded example at times 0, 0.2, 0.4 with x positions 0, 10, 20 returns
x = 10 exactly at time 0.2 and x = 15 at time 0.3. -/
theorem getFramePackage_bracketing (hist : List FFramePackage) (t : ℚ)
    (hs : TimeOrdered hist) (hlen : 2 ≤ hist.length)
    (hlow : tailTime hist < t) (hhigh : t < headTime hist) :
    (∃ i older younger,
      hist.get? i = some younger ∧ hist.get? (i + 1) = some older ∧
      older.Time ≤ t ∧ t < younger.Time ∧
      getFramePackage true hist t =
        (if older.Time = t then older else interpBetweenFrames older younger t) ∧
      (older.Time ≠ t →
        getFramePackage true hist t =
          { HitBox :=
              { Min := lerpVec older.HitBox.Min younger.HitBox.Min
                  (clampQ ((t - older.Time) / (younger.Time - older.Time)) 0 1)
              , Max := lerpVec older.HitBox.Max younger.HitBox.Max
                  (clampQ ((t - older.Time) / (younger.Time - older.Time)) 0 1) }
          , bTeleported := older.bTeleported || younger.bTeleported
          , Time := t })) ∧
    (getFramePackage true demoHist 0.2 = mkSnap 0.2 10 ∧
      (getFramePackage true demoHist 0.3).HitBox.Min.x = 15 ∧
      (getFramePackage true demoHist 0.3).HitBox.Max.x = 15 ∧
      (getFramePackage true demoHist 0.3).Time = 0.3) := by
  constructor
  · match hist, hlen with
    | v :: rest, hlen2 =>
      have hvt : t < v.Time := by simpa [headTime] using hhigh
      have hrest : rest ≠ [] := by
        intro h
        rw [h] at hlen2
        simp at hlen2
      have htail : (rest.getLastD v).Time < t := by
        have h := hlow
        unfold tailTime at h
        rw [List.getLastD_cons] at h
        exact h
      have hreach : ∃ p ∈ rest, p.Time ≤ t :=
        ⟨rest.getLastD v, getLastD_mem rest v hrest, htail.le⟩
      obtain ⟨ys, older, zs, hsplit, hys, holder, hscan⟩ :=
        scanLoop_spec t rest v hvt hreach
      set younger := (v :: ys).getLastD defaultFramePackage with hyoung
      have hymem : younger ∈ v :: ys := getLastD_mem (v :: ys) _ (by simp)
      have hyt : t < younger.Time := by
        rcases List.mem_cons.mp hymem with h | h
        · rw [h]; exact hvt
        · exact hys _ h
      have hassoc : v :: rest = (v :: ys) ++ (older :: zs) := by
        rw [hsplit]; rfl
      have hold : ¬ ((v :: rest).getLastD defaultFramePackage).Time > t := by
        rw [List.getLastD_cons]
        exact not_lt.mpr htail.le
      have holdne : ¬ ((v :: rest).getLastD defaultFramePackage).Time = t := by
        rw [List.getLastD_cons]
        exact ne_of_lt htail
      have hmain : getFramePackage true (v :: rest) t =
          (if older.Time = t then older else interpBetweenFrames older younger t) := by
        simp only [getFramePackage]
        rw [if_neg (by simp), if_neg hold, if_neg holdne,
          if_neg (not_le.mpr hvt), hscan]
        by_cases ht : older.Time = t
        · simp [ht]
        · simp [ht]
      refine ⟨ys.length, older, younger, ?_, ?_, holder, hyt, hmain, ?_⟩
      · rw [hassoc, List.get?_append (by simp)]
        have h1 : (v :: ys).getLast? = some younger := by
          rw [hyoung, List.getLastD_eq_getLast?,
            List.getLast?_eq_getLast (v :: ys) (by simp)]
          rfl
        have h2 : (v :: ys).length - 1 = ys.length := by simp
        rw [← h2, ← List.getLast?_eq_get?]
        exact h1
      · rw [hassoc, List.get?_append_right (by simp)]
        simp
      · intro ht
        rw [hmain, if_neg ht]
        exact interpBetweenFrames_lerp older younger t
          (lt_of_le_of_ne holder ht) hyt.le
  · refine ⟨?_, ?_, ?_, ?_⟩ <;>
      norm_num [demoHist, recordFrames, updateFramePackage, evictOldFrames, evictLoopRev,
        headTime, tailTime, mkSnap, getFramePackage, scanLoop, interpBetweenFrames,
        vInterpTo, clampQ, defaultFramePackage, Vec3.sub, Vec3.add, Vec3.scale,
        Vec3.sizeSquared]

/-- C4 witness: the bracketing theorem applied to a concrete three-entry
history queried strictly inside its time range. -/
theorem getFramePackage_bracketing_witness :
    ∃ i older younger,
      (demoHist.get? i = some younger ∧ demoHist.get? (i + 1) = some older ∧
        older.Time ≤ 0.3 ∧ (0.3 : ℚ) < younger.Time ∧
        getFramePackage true demoHist 0.3 =
          (if older.Time = 0.3 then older else interpBetweenFrames older younger 0.3) ∧
        (older.Time ≠ 0.3 →
          getFramePackage true demoHist 0.3 =
            { HitBox :=
                { Min := lerpVec older.HitBox.Min younger.HitBox.Min
                    (clampQ ((0.3 - older.Time) / (younger.Time - older.Time)) 0 1)
                , Max := lerpVec older.HitBox.Max younger.HitBox.Max
                    (clampQ ((0.3 - older.Time) / (younger.Time - older.Time)) 0 1) }
            , bTeleported := older.bTeleported || younger.bTeleported
            , Time := 0.3 })) :=
  (getFramePackage_bracketing demoHist 0.3
    (by norm_num [demoHist, recordFrames, updateFramePackage, evictOldFrames,
      evictLoopRev, headTime, tailTime, mkSnap, TimeOrdered, List.pairwise_cons])
    (by norm_num [demoHist, recordFrames, updateFramePackage, evictOldFrames,
      evictLoopRev, headTime, tailTime, mkSnap])
    (by norm_num [demoHist, recordFrames, updateFramePackage, evictOldFrames,
      evictLoopRev, headTime, tailTime, mkSnap, List.getLastD_cons])
    (by norm_num [demoHist, recordFrames, updateFramePackage, evictOldFrames,
      evictLoopRev, headTime, tailTime, mkSnap])).1

/-! ## Class policy resolver (GameplayReplicationGraph.cpp, GetClassNodeMapping) -/

/-- EClassRepNodeMapping: the five routing categories. -/
inductive EClassRepNodeMapping where
  | NotRouted
  | RelevantAllConnections
  | Spatialize_Static
  | Spatialize_Dynamic
  | Spatialize_Dormancy
deriving DecidableEq

/-- The CDO flags GetClassNodeMapping reads from a class default object. -/
structure ActorCDOFlags where
  isReplicated : Bool
  bAlwaysRelevant : Bool
  bOnlyRelevantToOwner : Bool
  bNetUseOwnerRelevancy : Bool
deriving DecidableEq

/-- A UClass is modelled by whether its CDO casts to AActor, the CDO
flags, and the super class chain (nearest ancestor first); the chain is
finite and acyclic, which is the invariant of the reflection system. -/
structure UClassM where
  isActorClass : Bool
  cdo : ActorCDOFlags
  supers : List (Bool × ActorCDOFlags)
deriving DecidableEq

/-- GetSuperClass composed with the CDO view: the nearest ancestor as a
UClassM, when the chain is non-empty. -/
def UClassM.superClass : UClassM → Option UClassM
  | ⟨_, _, []⟩ => none
  | ⟨_, _, (b, f) :: rest⟩ => some ⟨b, f, rest⟩

/-- The class-keyed policy map ClassRepNodePolicies; explicit settings and
memoized resolutions both live here, exactly as in TClassMap. -/
def ClassRepNodePolicies := List (UClassM × EClassRepNodeMapping)

/-- TClassMap.FindWithoutClassRecursion: an exact-key lookup that does not
walk the super chain. -/
def findPolicy (pol : ClassRepNodePolicies) (c : UClassM) :
    Option EClassRepNodeMapping :=
  match pol with
  | [] => none
  | (k, m) :: rest => if k = c then some m else findPolicy rest c

/-- The ShouldSpatialize lambda of GetClassNodeMapping. -/
def shouldSpatialize (cdo : ActorCDOFlags) : Bool :=
  cdo.isReplicated &&
    !(cdo.bAlwaysRelevant || cdo.bOnlyRelevantToOwner || cdo.bNetUseOwnerRelevancy)

/-- The flag comparison GetClassNodeMapping performs between a class and
its super class CDO. -/
def sameRelevanceFlags (a b : ActorCDOFlags) : Bool :=
  a.isReplicated == b.isReplicated &&
  a.bAlwaysRelevant == b.bAlwaysRelevant &&
  a.bOnlyRelevantToOwner == b.bOnlyRelevantToOwner &&
  a.bNetUseOwnerRelevancy == b.bNetUseOwnerRelevancy

/-- The body of UGameplayReplicationGraph.GetClassNodeMapping, recursing
along the super chain; the class identity at each step is the flags
together with the remaining chain. -/
def getClassNodeMappingAux (pol : ClassRepNodePolicies) :
    List (Bool × ActorCDOFlags) → Bool → ActorCDOFlags → EClassRepNodeMapping
  | supers, ia, cdo =>
    match findPolicy pol ⟨ia, cdo, supers⟩ with
    | some m => m
    | none =>
      if ¬(ia ∧ cdo.isReplicated) then .NotRouted
      else
        match supers with
        | (sb, sf) :: rest =>
          if sb ∧ sameRelevanceFlags sf cdo then
            getClassNodeMappingAux pol rest sb sf
          else if shouldSpatialize cdo then .Spatialize_Dynamic
          else if cdo.bAlwaysRelevant ∧ ¬cdo.bOnlyRelevantToOwner then
            .RelevantAllConnections
          else .NotRouted
        | [] =>
          if shouldSpatialize cdo then .Spatialize_Dynamic
          else if cdo.bAlwaysRelevant ∧ ¬cdo.bOnlyRelevantToOwner then
            .RelevantAllConnections
          else .NotRouted

/-- UGameplayReplicationGraph.GetClassNodeMapping: null class is
NotRouted; an exact cached or explicit mapping wins; a class whose CDO is
not an actor or not replicated is NotRouted; a class whose flags agree
with an actor super CDO resolves as that super; otherwise the direct
computation applies. -/
def getClassNodeMapping (pol : ClassRepNodePolicies) :
    Option UClassM → EClassRepNodeMapping
  | none => .NotRouted
  | some c => getClassNodeMappingAux pol c.supers c.isActorClass c.cdo

/-- The direct computation in the order the claim states it: not
replicated is NotRouted; replicated with none of the three relevance
flags is Spatialize_Dynamic; replicated, always relevant and not owner
only is RelevantAllConnections; anything else is NotRouted. -/
def directSpecMapping (cdo : ActorCDOFlags) : EClassRepNodeMapping :=
  if ¬cdo.isReplicated then .NotRouted
  else if ¬(cdo.bAlwaysRelevant ∨ cdo.bOnlyRelevantToOwner ∨ cdo.bNetUseOwnerRelevancy) then
    .Spatialize_Dynamic
  else if cdo.bAlwaysRelevant ∧ ¬cdo.bOnlyRelevantToOwner then .RelevantAllConnections
  else .NotRouted

/-- The body of the claim-wording resolver, recursing along the chain. -/
def resolveSpecAux (pol : ClassRepNodePolicies) :
    List (Bool × ActorCDOFlags) → Bool → ActorCDOFlags → EClassRepNodeMapping
  | supers, ia, cdo =>
    if ¬ia then .NotRouted
    else
      match findPolicy pol ⟨ia, cdo, supers⟩ with
      | some m => m
      | none =>
        match supers with
        | (sb, sf) :: rest =>
          if sb ∧ sameRelevanceFlags sf cdo then
            resolveSpecAux pol rest sb sf
          else directSpecMapping cdo
        | [] => directSpecMapping cdo

/-- Reference resolver following the claim wording: null or unresolvable
is NotRouted; a cached or explicit mapping is returned; a class whose
relevance flags all equal those of its nearest (actor) ancestor resolves
as the ancestor does; otherwise the direct computation applies. -/
def resolveSpec (pol : ClassRepNodePolicies) : Option UClassM → EClassRepNodeMapping
  | none => .NotRouted
  | some c => resolveSpecAux pol c.supers c.isActorClass c.cdo

/-- The body of the amended resolver, recursing along the chain. -/
def resolveAmendedAux (pol : ClassRepNodePolicies) :
    List (Bool × ActorCDOFlags) → Bool → ActorCDOFlags → EClassRepNodeMapping
  | supers, ia, cdo =>
    match findPolicy pol ⟨ia, cdo, supers⟩ with
    | some m => m
    | none =>
      if ¬ia ∨ ¬cdo.isReplicated then .NotRouted
      else
        match supers with
        | (sb, sf) :: rest =>
          if sb ∧ sameRelevanceFlags sf cdo then
            resolveAmendedAux pol rest sb sf
          else directSpecMapping cdo
        | [] => directSpecMapping cdo

/-- Reference resolver amended to match the code: the not-replicated (and
not-an-actor) check comes before the ancestor comparison, so a
non-replicated class is NotRouted even when a flag-equal ancestor has a
cached mapping. -/
def resolveAmended (pol : ClassRepNodePolicies) : Option UClassM → EClassRepNodeMapping
  | none => .NotRouted
  | some c => resolveAmendedAux pol c.supers c.isActorClass c.cdo

/-- A non-replicated parent class with all flags clear. -/
def nonReplicatedParent : UClassM :=
  ⟨true, ⟨false, false, false, false⟩, []⟩

/-- A child of nonReplicatedParent with identical CDO flags. -/
def nonReplicatedChild : UClassM :=
  ⟨true, ⟨false, false, false, false⟩, [(true, ⟨false, false, false, false⟩)]⟩

/-- A policy map in which the parent carries an explicit mapping. -/
def demoPolicies : ClassRepNodePolicies :=
  [(nonReplicatedParent, .Spatialize_Static)]

/-- C1 counterexample: a non-replicated child class whose relevance flags
all equal those of its parent, while the parent carries an explicit
cached mapping Spatialize_Static.  The claim resolution follows the
ancestor and returns the cached Spatialize_Static, but the code returns
NotRouted because the not-replicated check runs before the ancestor
comparison. -/
theorem getClassNodeMapping_spec_mismatch :
    getClassNodeMapping demoPolicies (some nonReplicatedChild) ≠
      resolveSpec demoPolicies (some nonReplicatedChild) ∧
    getClassNodeMapping demoPolicies (some nonReplicatedChild) =
      .NotRouted ∧
    resolveSpec demoPolicies (some nonReplicatedChild) =
      .Spatialize_Static := by
  refine ⟨?_, ?_, ?_⟩ <;> decide

theorem direct_computation_eq (cdo : ActorCDOFlags) (h : cdo.isReplicated = true) :
    (if shouldSpatialize cdo then EClassRepNodeMapping.Spatialize_Dynamic
     else if cdo.bAlwaysRelevant ∧ ¬cdo.bOnlyRelevantToOwner then
       EClassRepNodeMapping.RelevantAllConnections
     else EClassRepNodeMapping.NotRouted) = directSpecMapping cdo := by
  obtain ⟨r, a, o, u⟩ := cdo
  simp only at h
  subst h
  cases a <;> cases o <;> cases u <;> simp [shouldSpatialize, directSpecMapping]

theorem getClassNodeMappingAux_eq_amended (pol : ClassRepNodePolicies)
    (supers : List (Bool × ActorCDOFlags)) :
    ∀ ia cdo, getClassNodeMappingAux pol supers ia cdo =
      resolveAmendedAux pol supers ia cdo := by
  induction supers with
  | nil =>
    intro ia cdo
    cases hfp : findPolicy pol ⟨ia, cdo, []⟩ with
    | some m => simp [getClassNodeMappingAux, resolveAmendedAux, hfp]
    | none =>
      rw [getClassNodeMappingAux, resolveAmendedAux, hfp]
      simp only [not_and_or]
      by_cases hia : ia = true ∧ cdo.isReplicated = true
      · have hcond : ¬(¬ia = true ∨ ¬cdo.isReplicated = true) := by
          simp [hia.1, hia.2]
        rw [if_neg hcond, if_neg hcond]
        exact direct_computation_eq cdo hia.2
      · have hcond : ¬ia = true ∨ ¬cdo.isReplicated = true := not_and_or.mp hia
        rw [if_pos hcond, if_pos hcond]
  | cons p rest ih =>
    intro ia cdo
    obtain ⟨sb, sf⟩ := p
    cases hfp : findPolicy pol ⟨ia, cdo, (sb, sf) :: rest⟩ with
    | some m => simp [getClassNodeMappingAux, resolveAmendedAux, hfp]
    | none =>
      rw [getClassNodeMappingAux, resolveAmendedAux, hfp]
      simp only [not_and_or]
      by_cases hia : ia = true ∧ cdo.isReplicated = true
      · have hcond : ¬(¬ia = true ∨ ¬cdo.isReplicated = true) := by
          simp [hia.1, hia.2]
        rw [if_neg hcond, if_neg hcond]
        by_cases hrec : sb = true ∧ sameRelevanceFlags sf cdo = true
        · rw [if_pos hrec, if_pos hrec]
          exact ih sb sf
        · rw [if_neg hrec, if_neg hrec]
          exact direct_computation_eq cdo hia.2
      · have hcond : ¬ia = true ∨ ¬cdo.isReplicated = true := not_and_or.mp hia
        rw [if_pos hcond, if_pos hcond]

theorem getClassNodeMappingAux_cached (pol : ClassRepNodePolicies)
    (supers : List (Bool × ActorCDOFlags)) (ia : Bool) (cdo : ActorCDOFlags)
    (m : EClassRepNodeMapping)
    (h : findPolicy pol ⟨ia, cdo, supers⟩ = some m) :
    getClassNodeMappingAux pol supers ia cdo = m := by
  cases supers with
  | nil => rw [getClassNodeMappingAux, h]
  | cons p rest => rw [getClassNodeMappingAux, h]

/-- C1 (amended): the code resolver agrees everywhere with the reference
definition in which a null or unresolvable or non-replicated class is
NotRouted before the ancestor comparison, a cached or explicit mapping is
returned, a class whose relevance flags all equal those of its nearest
actor ancestor resolves as the ancestor does, and otherwise the direct
computation of the claim applies.  Resolution is also stable under the
memoization side effect: caching the result and resolving again returns
the same category. -/
theorem getClassNodeMapping_correct (pol : ClassRepNodePolicies)
    (oc : Option UClassM) :
    getClassNodeMapping pol oc = resolveAmended pol oc ∧
    (∀ c : UClassM,
      getClassNodeMapping ((c, getClassNodeMapping pol (some c)) :: pol) (some c) =
        getClassNodeMapping pol (some c)) := by
  constructor
  · cases oc with
    | none => rfl
    | some c => exact getClassNodeMappingAux_eq_amended pol c.supers c.isActorClass c.cdo
  · intro c
    show getClassNodeMappingAux _ _ _ _ = _
    apply getClassNodeMappingAux_cached
    show (if c = ⟨c.isActorClass, c.cdo, c.supers⟩ then _ else _) = _
    rw [if_pos rfl]

/-! ## Per-connection always-relevant node
(GameRepGraphNode_AlwaysRelevant_ForConnection) -/

/-- Actors are identified by numbers in the node models. -/
abbrev ActorId := ℕ

/-- Level (region) names are identified by numbers. -/
abbrev LevelName := ℕ

/-- FActorRepListRefView.ConditionalAdd: appends the actor when it is
present (non-null) and not already in the list. -/
def conditionalAdd (l : List ActorId) (a : Option ActorId) : List ActorId :=
  match a with
  | none => l
  | some x => if x ∈ l then l else l ++ [x]

/-- The result of Cast<APlayerController>(InViewer) together with the
fields the gather loop reads from the controller: the player state and
the controlled pawn as a character (None when the respective cast fails
or the pointer is null). -/
structure PCView where
  playerState : Option ActorId
  characterPawn : Option ActorId

/-- One FNetViewer of the gather parameters: the viewing actor, its view
target, and the controller view when the viewer casts to a player
controller. -/
structure ViewerM where
  inViewer : Option ActorId
  viewTarget : Option ActorId
  pc : Option PCView

/-- The per-viewer part of
UGameRepGraphNode_AlwaysRelevant_ForConnection.GatherActorListsForConnection:
the viewer and its view target are conditionally added; for a player
controller the player state is added exactly when the connection order
number and the replication frame number agree modulo two, and the
controlled character pawn is added when it differs from the view target.
The cached-actor bookkeeping (PastRelevantActorMap) does not contribute
to the gathered list and is omitted. -/
def gatherViewer (connOrderNum frameNum : ℕ) (l : List ActorId) (v : ViewerM) :
    List ActorId :=
  let l1 := conditionalAdd l v.inViewer
  let l2 := conditionalAdd l1 v.viewTarget
  match v.pc with
  | none => l2
  | some pc =>
    let l3 :=
      if connOrderNum % 2 = frameNum % 2 then conditionalAdd l2 pc.playerState
      else l2
    match pc.characterPawn with
    | none => l3
    | some pawn =>
      if some pawn ≠ v.viewTarget then conditionalAdd l3 (some pawn) else l3

/-- The viewer loop of GatherActorListsForConnection: ReplicationActorList
is reset and then filled from every viewer of the connection. -/
def gatherConnViewerList (connOrderNum frameNum : ℕ) (viewers : List ViewerM) :
    List ActorId :=
  viewers.foldl (gatherViewer connOrderNum frameNum) []

/-- Membership in conditionalAdd. -/
theorem mem_conditionalAdd (l : List ActorId) (a : Option ActorId) (x : ActorId) :
    x ∈ conditionalAdd l a ↔ x ∈ l ∨ a = some x := by
  match a with
  | none => simp [conditionalAdd]
  | some y =>
    by_cases hy : y ∈ l
    · constructor
      · intro h; simp [conditionalAdd, hy] at h; exact Or.inl h
      · intro h
        rcases h with h | h
        · simpa [conditionalAdd, hy]
        · cases h; simp [conditionalAdd, hy]
    · simp [conditionalAdd, hy, List.mem_append]
      constructor
      · intro h
        rcases h with h | h
        · exact Or.inl h
        · exact Or.inr h.symm
      · intro h
        rcases h with h | h
        · exact Or.inl h
        · exact Or.inr h.symm

/-- C6: with a player-controlled viewer whose player state differs from
the other actors the loop may add, the gathered list contains the player
state exactly when the connection order number and the replication frame
number agree modulo two, equivalently when their sum is even; each
connection therefore receives the status record on alternating ticks:
never on two consecutive frames, and always again two frames later. -/
theorem playerState_half_throttle (connOrderNum frameNum : ℕ) (v : ViewerM)
    (pc : PCView) (ps : ActorId)
    (hpc : v.pc = some pc) (hps : pc.playerState = some ps)
    (h1 : v.inViewer ≠ some ps) (h2 : v.viewTarget ≠ some ps)
    (h3 : pc.characterPawn ≠ some ps) :
    (ps ∈ gatherConnViewerList connOrderNum frameNum [v] ↔
      connOrderNum % 2 = frameNum % 2) ∧
    ((connOrderNum % 2 = frameNum % 2) ↔ (connOrderNum + frameNum) % 2 = 0) ∧
    (ps ∈ gatherConnViewerList connOrderNum (frameNum + 2) [v] ↔
      ps ∈ gatherConnViewerList connOrderNum frameNum [v]) ∧
    ¬(ps ∈ gatherConnViewerList connOrderNum frameNum [v] ↔
      ps ∈ gatherConnViewerList connOrderNum (frameNum + 1) [v]) := by
  have key : ∀ f, ps ∈ gatherConnViewerList connOrderNum f [v] ↔
      connOrderNum % 2 = f % 2 := by
    intro f
    show ps ∈ gatherViewer connOrderNum f [] v ↔ _
    simp only [gatherViewer, hpc, hps]
    by_cases hpar : connOrderNum % 2 = f % 2
    · cases hcp : pc.characterPawn with
      | none => simp [hpar, mem_conditionalAdd, h1, h2]
      | some pawn =>
        have hpwne : ¬ pawn = ps := by
          intro e
          exact h3 (by rw [hcp, e])
        by_cases hpv : some pawn ≠ v.viewTarget
        · simp [hpar, hpv, mem_conditionalAdd, h1, h2, hpwne]
        · simp [hpar, hpv, mem_conditionalAdd, h1, h2]
    · cases hcp : pc.characterPawn with
      | none => simp [hpar, mem_conditionalAdd, h1, h2]
      | some pawn =>
        have hpwne : ¬ pawn = ps := by
          intro e
          exact h3 (by rw [hcp, e])
        by_cases hpv : some pawn ≠ v.viewTarget
        · simp [hpar, hpv, mem_conditionalAdd, h1, h2, hpwne]
        · simp [hpar, hpv, mem_conditionalAdd, h1, h2]
  refine ⟨key frameNum, by omega, ?_, ?_⟩
  · rw [key (frameNum + 2), key frameNum]
    omega
  · rw [key frameNum, key (frameNum + 1)]
    omega

/-- C6 witness: the throttle theorem applied to one concrete viewer with
connection order 0 and frame 0. -/
theorem playerState_half_throttle_witness :
    7 ∈ gatherConnViewerList 0 0 [⟨some 1, some 2, some ⟨some 7, some 3⟩⟩] ↔
      0 % 2 = 0 % 2 :=
  (playerState_half_throttle 0 0 ⟨some 1, some 2, some ⟨some 7, some 3⟩⟩
    ⟨some 7, some 3⟩ 7 rfl rfl (by simp) (by simp) (by simp)).1

/-! ## Player state frequency limiter
(GameRepGraphNode_PlayerStateFrequencyLimiter) -/

/-- A player state as the prepare pass sees it: identity, the outcome of
IsActorValidForReplicationGather, and a pending forced-update flag (the
flag is tracked by the engine; the prepare loop never reads it). -/
structure PlayerStateM where
  id : ℕ
  valid : Bool
  forceNetUpdatePending : Bool
deriving DecidableEq

/-- The bucket-filling loop of PrepareForReplication: each candidate is
appended to the current (last) list, and a fresh list is started whenever
the current one has reached TargetActorsPerFrame. -/
def buildLists (target : ℕ) : List PlayerStateM → List (List PlayerStateM) →
    List PlayerStateM → List (List PlayerStateM)
  | [], acc, cur => acc ++ [cur]
  | p :: rest, acc, cur =>
    if cur.length ≥ target then buildLists target rest (acc ++ [cur]) [p]
    else buildLists target rest acc (cur ++ [p])

/-- The two lists PrepareForReplication leaves behind. -/
structure PreparedLists where
  replicationActorLists : List (List PlayerStateM)
  forceNetUpdateList : List PlayerStateM
deriving DecidableEq

/-- UGameRepGraphNode_PlayerStateFrequencyLimiter.PrepareForReplication:
both lists are reset, one empty bucket is created, and every valid player
state is distributed into the rotating buckets; no statement of the loop
writes ForceNetUpdateReplicationActorList. -/
def prepareForReplication (candidates : List PlayerStateM) (target : ℕ) :
    PreparedLists :=
  { replicationActorLists := buildLists target (candidates.filter (·.valid)) [] []
  , forceNetUpdateList := [] }

/-- GatherActorListsForConnection of the limiter: the bucket selected by
the replication frame number modulo the bucket count, followed by the
force list when that is non-empty; the two contributed lists are
flattened into one output list. -/
def gatherFrequencyLimiter (prep : PreparedLists) (frameNum : ℕ) :
    List PlayerStateM :=
  prep.replicationActorLists.getD (frameNum % prep.replicationActorLists.length) [] ++
    (if prep.forceNetUpdateList.length > 0 then prep.forceNetUpdateList else [])

/-- C8: the prepare pass leaves the force list empty on every input, so a
candidate with a pending forced-update flag is placed into a rotating
bucket and not into the side force list: at the failing input (one valid
candidate with the flag pending, target 3) the candidate sits in bucket 0,
the force list is empty, and the gather output is just the selected
bucket, contradicting the claimed bypass. -/
theorem prepare_force_list_empty :
    (∀ (candidates : List PlayerStateM) (target : ℕ),
      (prepareForReplication candidates target).forceNetUpdateList = []) ∧
    (prepareForReplication [⟨0, true, true⟩] 3).replicationActorLists =
      [[⟨0, true, true⟩]] ∧
    (prepareForReplication [⟨0, true, true⟩] 3).forceNetUpdateList = [] ∧
    gatherFrequencyLimiter (prepareForReplication [⟨0, true, true⟩] 3) 0 =
      [⟨0, true, true⟩] := by
  exact ⟨fun _ _ => rfl, by decide, rfl, by decide⟩

/-- C7: with ten valid candidates and TargetActorsPerFrame 3 the prepare
pass produces exactly four buckets of sizes 3, 3, 3, 1; each gather
returns bucket (frame mod 4), so over any four consecutive frames every
candidate is gathered exactly once, and the output of a single frame
contains no duplicate. -/
theorem frequencyLimiter_fairness
    (p1 p2 p3 p4 p5 p6 p7 p8 p9 p10 : PlayerStateM)
    (hv : ∀ x ∈ [p1, p2, p3, p4, p5, p6, p7, p8, p9, p10], x.valid = true)
    (hnd : ([p1, p2, p3, p4, p5, p6, p7, p8, p9, p10] : List PlayerStateM).Nodup)
    (f : ℕ) :
    ((prepareForReplication [p1, p2, p3, p4, p5, p6, p7, p8, p9, p10]
        3).replicationActorLists.map List.length = [3, 3, 3, 1]) ∧
    ((prepareForReplication [p1, p2, p3, p4, p5, p6, p7, p8, p9, p10]
        3).replicationActorLists.length = 4) ∧
    (∀ x ∈ [p1, p2, p3, p4, p5, p6, p7, p8, p9, p10],
      ((gatherFrequencyLimiter (prepareForReplication
            [p1, p2, p3, p4, p5, p6, p7, p8, p9, p10] 3) f) ++
        (gatherFrequencyLimiter (prepareForReplication
            [p1, p2, p3, p4, p5, p6, p7, p8, p9, p10] 3) (f + 1)) ++
        (gatherFrequencyLimiter (prepareForReplication
            [p1, p2, p3, p4, p5, p6, p7, p8, p9, p10] 3) (f + 2)) ++
        (gatherFrequencyLimiter (prepareForReplication
            [p1, p2, p3, p4, p5, p6, p7, p8, p9, p10] 3) (f + 3))).count x = 1) ∧
    (gatherFrequencyLimiter (prepareForReplication
        [p1, p2, p3, p4, p5, p6, p7, p8, p9, p10] 3) f).Nodup := by
  have hfil : ([p1, p2, p3, p4, p5, p6, p7, p8, p9, p10] : List PlayerStateM).filter
      (·.valid) = [p1, p2, p3, p4, p5, p6, p7, p8, p9, p10] :=
    List.filter_eq_self.mpr hv
  have hbuck : (prepareForReplication [p1, p2, p3, p4, p5, p6, p7, p8, p9, p10]
      3).replicationActorLists =
      [[p1, p2, p3], [p4, p5, p6], [p7, p8, p9], [p10]] := by
    show buildLists 3 (([p1, p2, p3, p4, p5, p6, p7, p8, p9, p10] :
      List PlayerStateM).filter (·.valid)) [] [] = _
    rw [hfil]
    rfl
  have hg : ∀ g, gatherFrequencyLimiter (prepareForReplication
      [p1, p2, p3, p4, p5, p6, p7, p8, p9, p10] 3) g =
      ([[p1, p2, p3], [p4, p5, p6], [p7, p8, p9], [p10]] :
        List (List PlayerStateM)).getD (g % 4) [] := by
    intro g
    have hforce : (prepareForReplication [p1, p2, p3, p4, p5, p6, p7, p8, p9, p10]
        3).forceNetUpdateList = [] := rfl
    show _ ++ _ = _
    rw [hbuck, hforce]
    simp
  have h1 := List.nodup_append.mp
    (show (([p1, p2, p3] : List PlayerStateM) ++
      [p4, p5, p6, p7, p8, p9, p10]).Nodup from hnd)
  have h2 := List.nodup_append.mp
    (show (([p4, p5, p6] : List PlayerStateM) ++ [p7, p8, p9, p10]).Nodup from h1.2.1)
  have h3 := List.nodup_append.mp
    (show (([p7, p8, p9] : List PlayerStateM) ++ [p10]).Nodup from h2.2.1)
  have h4 : f % 4 = 0 ∨ f % 4 = 1 ∨ f % 4 = 2 ∨ f % 4 = 3 := by omega
  refine ⟨by rw [hbuck]; rfl, by rw [hbuck]; rfl, ?_, ?_⟩
  · intro x hx
    rcases h4 with h | h | h | h
    · have e1 : (f + 1) % 4 = 1 := by omega
      have e2 : (f + 2) % 4 = 2 := by omega
      have e3 : (f + 3) % 4 = 3 := by omega
      rw [hg f, hg (f + 1), hg (f + 2), hg (f + 3), h, e1, e2, e3]
      exact List.count_eq_one_of_mem hnd hx
    · have e1 : (f + 1) % 4 = 2 := by omega
      have e2 : (f + 2) % 4 = 3 := by omega
      have e3 : (f + 3) % 4 = 0 := by omega
      rw [hg f, hg (f + 1), hg (f + 2), hg (f + 3), h, e1, e2, e3]
      show List.count x (([p4, p5, p6, p7, p8, p9, p10] : List PlayerStateM) ++
        [p1, p2, p3]) = 1
      rw [List.Perm.count_eq List.perm_append_comm x]
      exact List.count_eq_one_of_mem hnd hx
    · have e1 : (f + 1) % 4 = 3 := by omega
      have e2 : (f + 2) % 4 = 0 := by omega
      have e3 : (f + 3) % 4 = 1 := by omega
      rw [hg f, hg (f + 1), hg (f + 2), hg (f + 3), h, e1, e2, e3]
      show List.count x (([p7, p8, p9, p10] : List PlayerStateM) ++
        [p1, p2, p3, p4, p5, p6]) = 1
      rw [List.Perm.count_eq List.perm_append_comm x]
      exact List.count_eq_one_of_mem hnd hx
    · have e1 : (f + 1) % 4 = 0 := by omega
      have e2 : (f + 2) % 4 = 1 := by omega
      have e3 : (f + 3) % 4 = 2 := by omega
      rw [hg f, hg (f + 1), hg (f + 2), hg (f + 3), h, e1, e2, e3]
      show List.count x (([p10] : List PlayerStateM) ++
        [p1, p2, p3, p4, p5, p6, p7, p8, p9]) = 1
      rw [List.Perm.count_eq List.perm_append_comm x]
      exact List.count_eq_one_of_mem hnd hx
  · rw [hg f]
    rcases h4 with h | h | h | h <;> rw [h]
    · exact h1.1
    · exact h2.1
    · exact h3.1
    · simp

/-- C7 witness: the fairness theorem applied to ten concrete distinct
player states at frame 0. -/
theorem frequencyLimiter_fairness_witness :
    (prepareForReplication [⟨1, true, false⟩, ⟨2, true, false⟩, ⟨3, true, false⟩,
        ⟨4, true, false⟩, ⟨5, true, false⟩, ⟨6, true, false⟩, ⟨7, true, false⟩,
        ⟨8, true, false⟩, ⟨9, true, false⟩, ⟨10, true, false⟩]
      3).replicationActorLists.map List.length = [3, 3, 3, 1] :=
  (frequencyLimiter_fairness ⟨1, true, false⟩ ⟨2, true, false⟩ ⟨3, true, false⟩
    ⟨4, true, false⟩ ⟨5, true, false⟩ ⟨6, true, false⟩ ⟨7, true, false⟩
    ⟨8, true, false⟩ ⟨9, true, false⟩ ⟨10, true, false⟩
    (by decide) (by decide) 0).1

/-! ## Streaming level (region) gated lists of the per-connection node -/

/-- The streaming-level loop of GatherActorListsForConnection.  The C++
iterates AlwaysRelevantStreamingLevelsNeedingReplication downward with
RemoveAtSwap, so every entry is examined exactly once, the last entry
first; the model processes the tail of the list before its head and
returns the levels that remain tracked together with the contributed
lists in processing order.  A level with no list in the map stops being
tracked; a level whose list exists but is empty only logs a warning and
stays tracked; a level whose members are all dormant on the connection
stops being tracked and contributes nothing; otherwise the list is
contributed.  Dormancy reads ConnectionActorInfoMap.FindOrAdd, whose
default bDormantOnConnection is false, so it is modelled as a total
function. -/
def processLevels (dormant : ActorId → Bool)
    (levelLists : LevelName → Option (List ActorId)) :
    List LevelName → List LevelName × List (List ActorId)
  | [] => ([], [])
  | L :: rest =>
    let tail := processLevels dormant levelLists rest
    match levelLists L with
    | none => tail
    | some rl =>
      if rl.length > 0 then
        if rl.all dormant then tail
        else (L :: tail.1, tail.2 ++ [rl])
      else (L :: tail.1, tail.2)

/-- C5 counterexample: a tracked region whose list exists but is empty is
still tracked after the gather (only a warning is logged), while the
claim says the node stops tracking it; the state is reachable by
registering an entity under the region and unregistering it. -/
theorem emptyRegionList_keeps_tracking :
    (processLevels (fun _ => false) (fun L => if L = 1 then some [] else none)
        [1]).1 = [1] ∧
    (processLevels (fun _ => false) (fun L => if L = 1 then some [] else none)
        [1]).2 = [] := by
  decide

/-- C5 (amended): a tracked region is dropped from tracking exactly when
it has no list at all or its non-empty list is entirely dormant on the
connection; a region whose list exists but is empty stays tracked (with a
warning) and contributes nothing; the contributed output consists exactly
of the lists of the surviving non-empty, not-all-dormant regions, in
processing order.  In particular entities 5, 6 registered under region 1
are contributed while either is awake, and once both are dormant the next
gather omits the contribution entirely and stops tracking the region. -/
theorem streamingLevels_gather_spec (dormant : ActorId → Bool)
    (levelLists : LevelName → Option (List ActorId)) (tracked : List LevelName) :
    (∀ L, L ∈ (processLevels dormant levelLists tracked).1 ↔
      (L ∈ tracked ∧ ∃ rl, levelLists L = some rl ∧
        (rl = [] ∨ ¬rl.all dormant = true))) ∧
    ((processLevels dormant levelLists tracked).2 =
      (tracked.reverse.filter (fun L =>
        match levelLists L with
        | none => false
        | some rl => decide (0 < rl.length) && !rl.all dormant)).map
        (fun L => (levelLists L).getD [])) ∧
    ((processLevels (fun _ => false)
        (fun L => if L = 1 then some [5, 6] else none) [1]).1 = [1] ∧
      (processLevels (fun _ => false)
        (fun L => if L = 1 then some [5, 6] else none) [1]).2 = [[5, 6]] ∧
      (processLevels (fun _ => true)
        (fun L => if L = 1 then some [5, 6] else none) [1]).1 = [] ∧
      (processLevels (fun _ => true)
        (fun L => if L = 1 then some [5, 6] else none) [1]).2 = []) := by
  refine ⟨?_, ?_, by decide, by decide, by decide, by decide⟩
  · intro L
    induction tracked with
    | nil => simp [processLevels]
    | cons M rest ih =>
      cases hM : levelLists M with
      | none =>
        simp only [processLevels, hM, List.mem_cons]
        rw [ih]
        constructor
        · intro h
          exact ⟨Or.inr h.1, h.2⟩
        · intro h
          rcases h with ⟨h1 | h1, h2⟩
          · exfalso
            obtain ⟨rl, hrl, _⟩ := h2
            rw [h1, hM] at hrl
            cases hrl
          · exact ⟨h1, h2⟩
      | some rl =>
        by_cases hlen : rl.length > 0
        · by_cases hdorm : rl.all dormant = true
          · simp only [processLevels, hM, if_pos hlen, if_pos hdorm, List.mem_cons]
            rw [ih]
            constructor
            · intro h
              exact ⟨Or.inr h.1, h.2⟩
            · intro h
              rcases h with ⟨h1 | h1, h2⟩
              · exfalso
                obtain ⟨rl2, hrl2, hc⟩ := h2
                rw [h1, hM] at hrl2
                cases hrl2
                rcases hc with hc | hc
                · rw [hc] at hlen; simp at hlen
                · exact hc hdorm
              · exact ⟨h1, h2⟩
          · simp only [processLevels, hM, if_pos hlen, if_neg hdorm, List.mem_cons]
            constructor
            · intro h
              rcases h with h | h
              · exact ⟨Or.inl h, rl, h ▸ hM, Or.inr hdorm⟩
              · obtain ⟨h1, h2⟩ := ih.mp h
                exact ⟨Or.inr h1, h2⟩
            · intro h
              rcases h with ⟨h1 | h1, h2⟩
              · exact Or.inl h1
              · exact Or.inr (ih.mpr ⟨h1, h2⟩)
        · have hrl : rl = [] := by
            cases rl with
            | nil => rfl
            | cons a as => simp at hlen
          simp only [processLevels, hM, if_neg hlen, List.mem_cons]
          constructor
          · intro h
            rcases h with h | h
            · exact ⟨Or.inl h, rl, h ▸ hM, Or.inl hrl⟩
            · obtain ⟨h1, h2⟩ := ih.mp h
              exact ⟨Or.inr h1, h2⟩
          · intro h
            rcases h with ⟨h1 | h1, h2⟩
            · exact Or.inl h1
            · exact Or.inr (ih.mpr ⟨h1, h2⟩)
  · induction tracked with
    | nil => simp [processLevels]
    | cons M rest ih =>
      cases hM : levelLists M with
      | none =>
        simp only [processLevels, hM, List.reverse_cons, List.filter_append, ih,
          List.map_append]
        simp [List.filter, hM]
      | some rl =>
        by_cases hlen : rl.length > 0
        · by_cases hdorm : rl.all dormant = true
          · simp only [processLevels, hM, if_pos hlen, if_pos hdorm,
              List.reverse_cons, List.filter_append, ih, List.map_append]
            simp [List.filter, hM, hdorm, hlen]
          · simp only [processLevels, hM, if_pos hlen, if_neg hdorm,
              List.reverse_cons, List.filter_append, ih, List.map_append]
            simp [List.filter, hM, hdorm, hlen]
        · simp only [processLevels, hM, if_neg hlen,
            List.reverse_cons, List.filter_append, ih, List.map_append]
          simp [List.filter, hM, hlen]

/-! ## Routing of add and remove
(UGameplayReplicationGraph.RouteAddNetworkActorToNodes /
RouteRemoveNetworkActorToNodes) -/

/-- Classes are identified by numbers in the routing model; the resolved
mapping policy (GetMappingPolicy over the already-registered
ClassRepNodePolicies, with NotRouted for unknown classes) is passed as a
function, and the same function is consulted by both the add and the
remove path. -/
abbrev ClassId := ℕ

/-- The routing state the add and remove paths touch: the global
always-relevant node list, the streaming level map, and the three spatial
grid sets. -/
structure RepGraphState where
  alwaysRelevantList : List ActorId
  streamingLevelLists : List (LevelName × List ActorId)
  gridStaticActors : List ActorId
  gridDynamicActors : List ActorId
  gridDormancyActors : List ActorId
deriving DecidableEq

/-- Result of a remove routing call: either it returns normally, carrying
the new state and whether a not-found warning was logged, or it hits a
fatal check (TMap.FindChecked on a missing key). -/
inductive RouteResult where
  | ok (st : RepGraphState) (warned : Bool)
  | fatalCheck
deriving DecidableEq

/-- Modelled from the spec: removal from an engine list node
(UReplicationGraphNode_ActorList.NotifyRemoveNetworkActor, the grid node
removals) and FActorRepListRefView.RemoveFast, which live outside this
repository: removing a present entity erases it, removing an absent
entity is a logged no-op; the Bool reports whether it was found. -/
def removeFromList (l : List ActorId) (a : ActorId) : List ActorId × Bool :=
  if a ∈ l then (l.erase a, true) else (l, false)

/-- TMap.Find on the streaming level map. -/
def lookupLevel : List (LevelName × List ActorId) → LevelName →
    Option (List ActorId)
  | [], _ => none
  | (k, v) :: rest, L => if k = L then some v else lookupLevel rest L

/-- Writing back the list of an existing key of the streaming level map. -/
def setLevel : List (LevelName × List ActorId) → LevelName → List ActorId →
    List (LevelName × List ActorId)
  | [], _, _ => []
  | (k, v) :: rest, L, rl =>
    if k = L then (k, rl) :: rest else (k, v) :: setLevel rest L rl

/-- TMap.FindOrAdd: appends a fresh empty entry when the key is absent. -/
def findOrAddLevel (m : List (LevelName × List ActorId)) (L : LevelName) :
    List (LevelName × List ActorId) :=
  match lookupLevel m L with
  | some _ => m
  | none => m ++ [(L, [])]

/-- UGameplayReplicationGraph.RouteAddNetworkActorToNodes: the resolved
mapping selects the node.  NotRouted does nothing; RelevantAllConnections
adds to the global always-relevant node when no streaming level is given
and otherwise to the FindOrAdd entry of the streaming level map via
ConditionalAdd; the three spatialized categories add to the corresponding
grid sets (engine node adds are modelled from the spec as conditional
appends).  The none arm of the inner match is unreachable because
FindOrAdd just created the entry. -/
def routeAddNetworkActorToNodes (policy : ClassId → EClassRepNodeMapping)
    (st : RepGraphState) (cls : ClassId) (actor : ActorId)
    (streamingLevelName : Option LevelName) : RepGraphState :=
  match policy cls with
  | .NotRouted => st
  | .RelevantAllConnections =>
    match streamingLevelName with
    | none =>
      { st with alwaysRelevantList := conditionalAdd st.alwaysRelevantList (some actor) }
    | some L =>
      match lookupLevel (findOrAddLevel st.streamingLevelLists L) L with
      | some rl =>
        { st with streamingLevelLists := (setLevel
            (findOrAddLevel st.streamingLevelLists L) L
            (conditionalAdd rl (some actor))) }
      | none => st
  | .Spatialize_Static =>
    { st with gridStaticActors := conditionalAdd st.gridStaticActors (some actor) }
  | .Spatialize_Dynamic =>
    { st with gridDynamicActors := conditionalAdd st.gridDynamicActors (some actor) }
  | .Spatialize_Dormancy =>
    { st with gridDormancyActors := conditionalAdd st.gridDormancyActors (some actor) }

/-- UGameplayReplicationGraph.RouteRemoveNetworkActorToNodes: the resolved
mapping selects the node.  NotRouted does nothing; RelevantAllConnections
removes from the global always-relevant node when no streaming level is
given, and otherwise calls FindChecked on the streaming level map, which
is a fatal check when the level has no list, followed by RemoveFast with
a warning when the actor is not in the list; the three spatialized
categories remove from the corresponding grid sets. -/
def routeRemoveNetworkActorToNodes (policy : ClassId → EClassRepNodeMapping)
    (st : RepGraphState) (cls : ClassId) (actor : ActorId)
    (streamingLevelName : Option LevelName) : RouteResult :=
  match policy cls with
  | .NotRouted => .ok st false
  | .RelevantAllConnections =>
    match streamingLevelName with
    | none =>
      let r := removeFromList st.alwaysRelevantList actor
      .ok { st with alwaysRelevantList := r.1 } (!r.2)
    | some L =>
      match lookupLevel st.streamingLevelLists L with
      | none => .fatalCheck
      | some rl =>
        let r := removeFromList rl actor
        .ok { st with streamingLevelLists := (setLevel st.streamingLevelLists L r.1) }
          (!r.2)
  | .Spatialize_Static =>
    let r := removeFromList st.gridStaticActors actor
    .ok { st with gridStaticActors := r.1 } (!r.2)
  | .Spatialize_Dynamic =>
    let r := removeFromList st.gridDynamicActors actor
    .ok { st with gridDynamicActors := r.1 } (!r.2)
  | .Spatialize_Dormancy =>
    let r := removeFromList st.gridDormancyActors actor
    .ok { st with gridDormancyActors := r.1 } (!r.2)

theorem removeFromList_not_found (l : List ActorId) (a : ActorId)
    (l2 : List ActorId) (h : removeFromList l a = (l2, false)) : l2 = l := by
  by_cases hm : a ∈ l
  · rw [removeFromList, if_pos hm] at h
    cases h
  · rw [removeFromList, if_neg hm] at h
    cases h
    rfl

theorem setLevel_lookup_self (m : List (LevelName × List ActorId)) (L : LevelName)
    (v : List ActorId) (h : lookupLevel m L = some v) : setLevel m L v = m := by
  induction m with
  | nil => rfl
  | cons p rest ih =>
    obtain ⟨k, w⟩ := p
    by_cases hk : k = L
    · rw [lookupLevel, if_pos hk] at h
      cases h
      rw [setLevel, if_pos hk]
    · rw [lookupLevel, if_neg hk] at h
      rw [setLevel, if_neg hk, ih h]

theorem lookupLevel_findOrAdd (m : List (LevelName × List ActorId)) (L : LevelName) :
    ∃ v, lookupLevel (findOrAddLevel m L) L = some v := by
  cases hm : lookupLevel m L with
  | some v => exact ⟨v, by rw [findOrAddLevel, hm]; exact hm⟩
  | none =>
    refine ⟨[], ?_⟩
    rw [findOrAddLevel, hm]
    induction m with
    | nil => simp [lookupLevel]
    | cons p rest ih =>
      obtain ⟨k, w⟩ := p
      by_cases hk : k = L
      · rw [lookupLevel, if_pos hk] at hm
        cases hm
      · rw [lookupLevel, if_neg hk] at hm
        show lookupLevel ((k, w) :: (rest ++ [(L, [])])) L = some []
        rw [lookupLevel, if_neg hk]
        exact ih hm

theorem lookupLevel_setLevel (m : List (LevelName × List ActorId)) (L : LevelName)
    (v v0 : List ActorId) (h : lookupLevel m L = some v0) :
    lookupLevel (setLevel m L v) L = some v := by
  induction m with
  | nil => cases h
  | cons p rest ih =>
    obtain ⟨k, w⟩ := p
    by_cases hk : k = L
    · rw [setLevel, if_pos hk, lookupLevel, if_pos hk]
    · rw [lookupLevel, if_neg hk] at h
      rw [setLevel, if_neg hk, lookupLevel, if_neg hk]
      exact ih h

theorem mem_conditionalAdd_self (l : List ActorId) (a : ActorId) :
    a ∈ conditionalAdd l (some a) := by
  by_cases h : a ∈ l <;> simp [conditionalAdd, h]

/-- C9 counterexample: unregistering a RelevantAllConnections entity whose
streaming level has no list in the map hits the fatal FindChecked check,
so the unregister path can abort; the claim says no unregister call is
fatal. -/
theorem routeRemove_missing_level_fatal :
    routeRemoveNetworkActorToNodes (fun _ => .RelevantAllConnections)
      ⟨[], [], [], [], []⟩ 0 7 (some 1) = .fatalCheck := by
  rfl

/-- C9 (amended): removal dispatches on the same resolved category as
registration, and the only fatal case is a RelevantAllConnections removal
naming a streaming level that has no list: every other removal returns
normally, a removal that does not find the entity in the expected list
only logs a warning and leaves the state unchanged, and removing an
entity right after registering it with the same class and level succeeds
with no warning and no fatal check. -/
theorem routeRemove_spec (policy : ClassId → EClassRepNodeMapping)
    (st : RepGraphState) (cls : ClassId) (actor : ActorId)
    (lvl : Option LevelName) :
    (routeRemoveNetworkActorToNodes policy st cls actor lvl = .fatalCheck ↔
      (policy cls = .RelevantAllConnections ∧ ∃ L, lvl = some L ∧
        lookupLevel st.streamingLevelLists L = none)) ∧
    (∀ st2, routeRemoveNetworkActorToNodes policy st cls actor lvl = .ok st2 true →
      st2 = st) ∧
    (∃ st2, routeRemoveNetworkActorToNodes policy
        (routeAddNetworkActorToNodes policy st cls actor lvl) cls actor lvl =
      .ok st2 false) := by
  refine ⟨?_, ?_, ?_⟩
  · cases hpol : policy cls with
    | NotRouted => simp [routeRemoveNetworkActorToNodes, hpol]
    | RelevantAllConnections =>
      cases lvl with
      | none => simp [routeRemoveNetworkActorToNodes, hpol]
      | some L =>
        cases hlk : lookupLevel st.streamingLevelLists L with
        | none => simp [routeRemoveNetworkActorToNodes, hpol, hlk]
        | some rl => simp [routeRemoveNetworkActorToNodes, hpol, hlk]
    | Spatialize_Static => simp [routeRemoveNetworkActorToNodes, hpol]
    | Spatialize_Dynamic => simp [routeRemoveNetworkActorToNodes, hpol]
    | Spatialize_Dormancy => simp [routeRemoveNetworkActorToNodes, hpol]
  · intro st2 h
    cases hpol : policy cls with
    | NotRouted =>
      simp [routeRemoveNetworkActorToNodes, hpol] at h
    | RelevantAllConnections =>
      cases lvl with
      | none =>
        by_cases hm : actor ∈ st.alwaysRelevantList
        · simp [routeRemoveNetworkActorToNodes, hpol, removeFromList, hm] at h
        · simp only [routeRemoveNetworkActorToNodes, hpol, removeFromList,
            if_neg hm, Bool.not_false, RouteResult.ok.injEq] at h
          rw [← h.1]
      | some L =>
        cases hlk : lookupLevel st.streamingLevelLists L with
        | none =>
          simp [routeRemoveNetworkActorToNodes, hpol, hlk] at h
        | some rl =>
          by_cases hm : actor ∈ rl
          · simp [routeRemoveNetworkActorToNodes, hpol, hlk, removeFromList, hm] at h
          · simp only [routeRemoveNetworkActorToNodes, hpol, hlk, removeFromList,
              if_neg hm, Bool.not_false, RouteResult.ok.injEq] at h
            rw [← h.1, setLevel_lookup_self st.streamingLevelLists L rl hlk]
    | Spatialize_Static =>
      by_cases hm : actor ∈ st.gridStaticActors
      · simp [routeRemoveNetworkActorToNodes, hpol, removeFromList, hm] at h
      · simp only [routeRemoveNetworkActorToNodes, hpol, removeFromList,
          if_neg hm, Bool.not_false, RouteResult.ok.injEq] at h
        rw [← h.1]
    | Spatialize_Dynamic =>
      by_cases hm : actor ∈ st.gridDynamicActors
      · simp [routeRemoveNetworkActorToNodes, hpol, removeFromList, hm] at h
      · simp only [routeRemoveNetworkActorToNodes, hpol, removeFromList,
          if_neg hm, Bool.not_false, RouteResult.ok.injEq] at h
        rw [← h.1]
    | Spatialize_Dormancy =>
      by_cases hm : actor ∈ st.gridDormancyActors
      · simp [routeRemoveNetworkActorToNodes, hpol, removeFromList, hm] at h
      · simp only [routeRemoveNetworkActorToNodes, hpol, removeFromList,
          if_neg hm, Bool.not_false, RouteResult.ok.injEq] at h
        rw [← h.1]
  · cases hpol : policy cls with
    | NotRouted =>
      exact ⟨st, by simp [routeRemoveNetworkActorToNodes, routeAddNetworkActorToNodes, hpol]⟩
    | RelevantAllConnections =>
      cases lvl with
      | none =>
        simp only [routeRemoveNetworkActorToNodes, routeAddNetworkActorToNodes, hpol]
        rw [removeFromList,
          if_pos (mem_conditionalAdd_self st.alwaysRelevantList actor)]
        exact ⟨_, rfl⟩
      | some L =>
        obtain ⟨v, hv⟩ := lookupLevel_findOrAdd st.streamingLevelLists L
        simp only [routeRemoveNetworkActorToNodes, routeAddNetworkActorToNodes,
          hpol, hv]
        rw [lookupLevel_setLevel _ L _ v hv]
        simp only [removeFromList, if_pos (mem_conditionalAdd_self v actor)]
        exact ⟨_, rfl⟩
    | Spatialize_Static =>
      simp only [routeRemoveNetworkActorToNodes, routeAddNetworkActorToNodes, hpol]
      rw [removeFromList, if_pos (mem_conditionalAdd_self st.gridStaticActors actor)]
      exact ⟨_, rfl⟩
    | Spatialize_Dynamic =>
      simp only [routeRemoveNetworkActorToNodes, routeAddNetworkActorToNodes, hpol]
      rw [removeFromList, if_pos (mem_conditionalAdd_self st.gridDynamicActors actor)]
      exact ⟨_, rfl⟩
    | Spatialize_Dormancy =>
      simp only [routeRemoveNetworkActorToNodes, routeAddNetworkActorToNodes, hpol]
      rw [removeFromList, if_pos (mem_conditionalAdd_self st.gridDormancyActors actor)]
      exact ⟨_, rfl⟩

/-- C9 witness: the amended routing theorem applied at a concrete state
where the removal misses its entity: the warning leaves the state
unchanged. -/
theorem routeRemove_spec_witness :
    ∀ st2, routeRemoveNetworkActorToNodes (fun _ => .RelevantAllConnections)
      ⟨[3], [], [], [], []⟩ 0 7 none = .ok st2 true → st2 = ⟨[3], [], [], [], []⟩ :=
  (routeRemove_spec (fun _ => .RelevantAllConnections)
    ⟨[3], [], [], [], []⟩ 0 7 none).2.1

end GameplayReplication
